import Mathlib

/-!
Verification of the leader-discovery client of the `raft` crate
(`src/client.rs`): the `Client` structure and its `propose` method.

The embedding models `propose` as a fuel-indexed loop over an explicit
simulation state.  External effects (TCP connects, preamble writes, the
write/flush/read of one proposal exchange) are supplied by a `World`
oracle, and every effect performed is recorded in an event trace, so that
theorems can speak about which addresses were contacted, where preambles
were sent, and in what order.

The candidate set is a Rust `HashSet<SocketAddr>`; its iterator yields
each element exactly once in an arbitrary order.  It is modelled as the
list of addresses in that iteration order; where a property needs the
set-ness of `HashSet`, a `List.Nodup` hypothesis records it.

The proposal payload (`entry: &[u8]`) is opaque to the client: the request
message is built once before the loop and re-sent verbatim on every
iteration, and no control decision depends on it.  It is carried as an
argument of `propose` but does not influence the loop.
-/

/-- Network address (`SocketAddr` in the source), abstracted to a natural. -/
abbrev Address := Nat

/-- One established framed channel (`BufStream<TcpStream>` in the source):
its peer address together with an identifier that distinguishes physical
connections (each successful `TcpStream::connect` yields a fresh one). -/
structure Connection where
  peer : Address
  cid : Nat
deriving DecidableEq, Repr

/-- The `Client` struct of `src/client.rs`: unique id, the optional
retained connection to the current believed leader, and the cluster
candidate set in its iteration order. -/
structure Client where
  id : Nat
  leader_connection : Option Connection
  cluster : List Address
deriving DecidableEq, Repr

/-- Result of the write/flush/read of one proposal exchange, as the source
decodes it in `propose` (lines 67-91 of `client.rs`):
* `ioErr` — `try!` failure of the request write, the flush, the response
  read, or `get_root`; propagated as an error return;
* `success` — `proposal_response::Which::Success`;
* `unknownLeader` — `proposal_response::Which::UnknownLeader`;
* `notLeaderOk a` — `proposal_response::Which::NotLeader` carrying a
  well-formed leader address `a`;
* `notLeaderBad` — `NotLeader` whose address fails to decode, so the inner
  `try!(leader)` propagates an error;
* `unexpected` — any other shape: a non-`Proposal` response variant, a
  `Proposal(Err(_))`, or an out-of-schema discriminant; the source hits
  `panic!("Unexpected message type")` or `.unwrap()` here. -/
inductive ReadResult where
  | ioErr : ReadResult
  | success : ReadResult
  | unknownLeader : ReadResult
  | notLeaderOk : Address → ReadResult
  | notLeaderBad : ReadResult
  | unexpected : ReadResult
deriving DecidableEq, Repr

/-- Errors `propose` can return, merging `RaftError::LeaderSearchExhausted`
with the io/decode errors the crate `Result` wraps.  `connectError a` tags
the failure of `TcpStream::connect(a)` with the address it was for. -/
inductive RaftError where
  | leaderSearchExhausted : RaftError
  | connectError : Address → RaftError
  | ioError : RaftError
deriving DecidableEq, Repr

/-- How one call of `propose` ends: a normal `Ok(())`, an error return, or
a process abort through `panic!` / `.unwrap()`. -/
inductive Outcome where
  | ok : Outcome
  | err : RaftError → Outcome
  | panicked : Outcome
deriving DecidableEq, Repr

/-- Observable effects of one `propose` call, in order:
`connect a c` — `TcpStream::connect(a)` succeeded yielding connection `c`;
`connectFail a` — `TcpStream::connect(a)` failed;
`preamble a c` — the connection preamble was written on connection `c`;
`exchange a c` — a proposal request was written (and a response awaited)
on connection `c` to peer `a`. -/
inductive Event where
  | connect : Address → Nat → Event
  | connectFail : Address → Event
  | preamble : Address → Nat → Event
  | exchange : Address → Nat → Event
deriving DecidableEq, Repr

/-- The environment: whether connecting to an address succeeds, whether
the preamble write on a given connection succeeds, and the decoded result
of the `n`-th proposal exchange of the run on a given connection. -/
structure World where
  connectOk : Address → Bool
  preambleOk : Connection → Bool
  respond : Connection → Nat → ReadResult

/-- Simulation state: the client, a counter minting fresh connection ids,
a counter of proposal exchanges performed, and the event trace of the
current call. -/
structure SimSt where
  client : Client
  nextCid : Nat
  xchg : Nat
  events : List Event
deriving DecidableEq, Repr

/-- Result of the connection-acquisition phase of one loop iteration. -/
inductive AcqRes where
  | fail : Outcome → SimSt → AcqRes
  | acquired : Connection → List Address → SimSt → AcqRes
deriving Repr

/-- Connection acquisition, `client.rs` lines 52-66: `take` the retained
`leader_connection` if present (no preamble is sent on it); otherwise draw
the next candidate from the iterator (`LeaderSearchExhausted` if none is
left), `TcpStream::connect` to it (a failure aborts the call with that
error), and write the preamble on the new stream (an io failure aborts). -/
def acquireConnection (w : World) (members : List Address) (s : SimSt) : AcqRes :=
  match s.client.leader_connection with
  | some cxn =>
      .acquired cxn members { s with client := { s.client with leader_connection := none } }
  | none =>
      match members with
      | [] => .fail (.err .leaderSearchExhausted) s
      | leader :: rest =>
          if w.connectOk leader then
            let cxn : Connection := ⟨leader, s.nextCid⟩
            let s1 : SimSt := { s with nextCid := s.nextCid + 1,
                                       events := s.events ++ [.connect leader s.nextCid] }
            if w.preambleOk cxn then
              .acquired cxn rest { s1 with events := s1.events ++ [.preamble leader s.nextCid] }
            else
              .fail (.err .ioError) s1
          else
            .fail (.err (.connectError leader)) { s with events := s.events ++ [.connectFail leader] }

/-- Result of one full loop iteration: either the call finishes with an
`Outcome`, or the loop continues with the remaining candidates and the
updated state. -/
inductive StepRes where
  | done : Outcome → SimSt → StepRes
  | next : List Address → SimSt → StepRes
deriving Repr

/-- Exchange and interpretation, `client.rs` lines 67-92: write the
request, flush, read one response, and dispatch:
`Success` stores the connection back into `leader_connection` and returns
`Ok`; `UnknownLeader` drops the connection and continues the loop;
`NotLeader` decodes the redirect address (a decode failure propagates),
connects to it, writes a fresh preamble on the new connection, stores it
as `leader_connection` and continues the loop without touching the
candidate iterator; any other shape panics. -/
def exchangeAndInterpret (w : World) (members : List Address) (s : SimSt)
    (cxn : Connection) : StepRes :=
  let s1 : SimSt := { s with xchg := s.xchg + 1,
                             events := s.events ++ [.exchange cxn.peer cxn.cid] }
  match w.respond cxn s.xchg with
  | .ioErr => .done (.err .ioError) s1
  | .success =>
      .done .ok { s1 with client := { s1.client with leader_connection := some cxn } }
  | .unknownLeader => .next members s1
  | .notLeaderBad => .done (.err .ioError) s1
  | .notLeaderOk b =>
      if w.connectOk b then
        let cxn2 : Connection := ⟨b, s1.nextCid⟩
        let s2 : SimSt := { s1 with nextCid := s1.nextCid + 1,
                                    events := s1.events ++ [.connect b s1.nextCid] }
        if w.preambleOk cxn2 then
          .next members { s2 with events := s2.events ++ [.preamble b s1.nextCid],
                                  client := { s2.client with leader_connection := some cxn2 } }
        else
          .done (.err .ioError) s2
      else
        .done (.err (.connectError b)) { s1 with events := s1.events ++ [.connectFail b] }
  | .unexpected => .done .panicked s1

/-- The `loop` of `propose`, with explicit fuel (returning `none` when the
fuel runs out before the call finishes). -/
def proposeLoop (w : World) : Nat → List Address → SimSt → Option (Outcome × SimSt)
  | 0, _, _ => none
  | fuel + 1, members, s =>
      match acquireConnection w members s with
      | .fail out s1 => some (out, s1)
      | .acquired cxn members1 s1 =>
          match exchangeAndInterpret w members1 s1 cxn with
          | .done out s2 => some (out, s2)
          | .next members2 s2 => proposeLoop w fuel members2 s2

/-- The `propose` method, `client.rs` lines 45-94: build the request from
the opaque `entry` payload, construct a fresh iterator over the full
cluster set, and run the loop.  The event trace is reset so that
`events` of the result is the trace of this call alone. -/
def propose (w : World) (entry : List Nat) (fuel : Nat) (s : SimSt) :
    Option (Outcome × SimSt) :=
  proposeLoop w fuel s.client.cluster { s with events := [] }

/-- Termination of a call: some amount of fuel suffices for the loop to
finish. -/
def Terminates (w : World) (entry : List Nat) (s : SimSt) : Prop :=
  ∃ fuel out s', propose w entry fuel s = some (out, s')

/-- Peers of the proposal exchanges of a trace: the addresses actually
contacted with a proposal, in order. -/
def exchangePeers (es : List Event) : List Address :=
  es.filterMap fun e => match e with | .exchange a _ => some a | _ => none

/-! ## Step equations for the two phases of a loop iteration -/

/-- With a retained connection the acquisition phase takes it and sends
nothing. -/
theorem acquire_retained (w : World) (members : List Address) (s : SimSt)
    (cxn : Connection) (h : s.client.leader_connection = some cxn) :
    acquireConnection w members s = .acquired cxn members
      { s with client := { s.client with leader_connection := none } } := by
  unfold acquireConnection; rw [h]

/-- With no retained connection and an exhausted iterator the call fails. -/
theorem acquire_exhausted (w : World) (s : SimSt)
    (h : s.client.leader_connection = none) :
    acquireConnection w [] s = .fail (.err .leaderSearchExhausted) s := by
  unfold acquireConnection; rw [h]

/-- Drawing a candidate whose connect and preamble both succeed. -/
theorem acquire_fresh (w : World) (s : SimSt) (a : Address) (rest : List Address)
    (h : s.client.leader_connection = none) (hca : w.connectOk a = true)
    (hpa : w.preambleOk ⟨a, s.nextCid⟩ = true) :
    acquireConnection w (a :: rest) s = .acquired ⟨a, s.nextCid⟩ rest
      { s with nextCid := s.nextCid + 1,
               events := (s.events ++ [.connect a s.nextCid]) ++ [.preamble a s.nextCid] } := by
  unfold acquireConnection; rw [h]; simp [hca, hpa]

/-- Drawing a candidate whose connect fails: the call aborts with that
connect error. -/
theorem acquire_connect_fail (w : World) (s : SimSt) (a : Address) (rest : List Address)
    (h : s.client.leader_connection = none) (hca : w.connectOk a = false) :
    acquireConnection w (a :: rest) s = .fail (.err (.connectError a))
      { s with events := s.events ++ [.connectFail a] } := by
  unfold acquireConnection; rw [h]; simp [hca]

/-- Drawing a candidate whose preamble write fails: the call aborts with an
io error. -/
theorem acquire_preamble_fail (w : World) (s : SimSt) (a : Address) (rest : List Address)
    (h : s.client.leader_connection = none) (hca : w.connectOk a = true)
    (hpa : w.preambleOk ⟨a, s.nextCid⟩ = false) :
    acquireConnection w (a :: rest) s = .fail (.err .ioError)
      { s with nextCid := s.nextCid + 1,
               events := s.events ++ [.connect a s.nextCid] } := by
  unfold acquireConnection; rw [h]; simp [hca, hpa]

/-- The state after the write/flush/read of one exchange on `cxn`. -/
def afterExchange (s : SimSt) (cxn : Connection) : SimSt :=
  { s with xchg := s.xchg + 1, events := s.events ++ [.exchange cxn.peer cxn.cid] }

theorem interp_ioErr (w : World) (m : List Address) (s : SimSt) (cxn : Connection)
    (hr : w.respond cxn s.xchg = .ioErr) :
    exchangeAndInterpret w m s cxn = .done (.err .ioError) (afterExchange s cxn) := by
  unfold exchangeAndInterpret; rw [hr]; rfl

theorem interp_success (w : World) (m : List Address) (s : SimSt) (cxn : Connection)
    (hr : w.respond cxn s.xchg = .success) :
    exchangeAndInterpret w m s cxn = .done .ok
      { afterExchange s cxn with
        client := { s.client with leader_connection := some cxn } } := by
  unfold exchangeAndInterpret; rw [hr]; rfl

theorem interp_unknown (w : World) (m : List Address) (s : SimSt) (cxn : Connection)
    (hr : w.respond cxn s.xchg = .unknownLeader) :
    exchangeAndInterpret w m s cxn = .next m (afterExchange s cxn) := by
  unfold exchangeAndInterpret; rw [hr]; rfl

theorem interp_notLeaderBad (w : World) (m : List Address) (s : SimSt) (cxn : Connection)
    (hr : w.respond cxn s.xchg = .notLeaderBad) :
    exchangeAndInterpret w m s cxn = .done (.err .ioError) (afterExchange s cxn) := by
  unfold exchangeAndInterpret; rw [hr]; rfl

theorem interp_unexpected (w : World) (m : List Address) (s : SimSt) (cxn : Connection)
    (hr : w.respond cxn s.xchg = .unexpected) :
    exchangeAndInterpret w m s cxn = .done .panicked (afterExchange s cxn) := by
  unfold exchangeAndInterpret; rw [hr]; rfl

/-- Redirect whose connect and preamble succeed: the new connection is
installed as the retained one and the candidate iterator is untouched. -/
theorem interp_redirect (w : World) (m : List Address) (s : SimSt) (cxn : Connection)
    (b : Address) (hr : w.respond cxn s.xchg = .notLeaderOk b)
    (hcb : w.connectOk b = true) (hpb : w.preambleOk ⟨b, s.nextCid⟩ = true) :
    exchangeAndInterpret w m s cxn = .next m
      { client := { s.client with leader_connection := some ⟨b, s.nextCid⟩ },
        nextCid := s.nextCid + 1, xchg := s.xchg + 1,
        events := ((s.events ++ [.exchange cxn.peer cxn.cid]) ++ [.connect b s.nextCid])
          ++ [.preamble b s.nextCid] } := by
  unfold exchangeAndInterpret; rw [hr]; simp [hcb, hpb]

theorem interp_redirect_connect_fail (w : World) (m : List Address) (s : SimSt)
    (cxn : Connection) (b : Address) (hr : w.respond cxn s.xchg = .notLeaderOk b)
    (hcb : w.connectOk b = false) :
    exchangeAndInterpret w m s cxn = .done (.err (.connectError b))
      { s with xchg := s.xchg + 1,
               events := (s.events ++ [.exchange cxn.peer cxn.cid]) ++ [.connectFail b] } := by
  unfold exchangeAndInterpret; rw [hr]; simp [hcb]

theorem interp_redirect_preamble_fail (w : World) (m : List Address) (s : SimSt)
    (cxn : Connection) (b : Address) (hr : w.respond cxn s.xchg = .notLeaderOk b)
    (hcb : w.connectOk b = true) (hpb : w.preambleOk ⟨b, s.nextCid⟩ = false) :
    exchangeAndInterpret w m s cxn = .done (.err .ioError)
      { s with nextCid := s.nextCid + 1, xchg := s.xchg + 1,
               events := (s.events ++ [.exchange cxn.peer cxn.cid]) ++ [.connect b s.nextCid] } := by
  unfold exchangeAndInterpret; rw [hr]; simp [hcb, hpb]

/-! ## Inversion principles for one loop iteration -/

/-- One unfolding of the loop. -/
theorem proposeLoop_succ (w : World) (n : Nat) (members : List Address) (s : SimSt) :
    proposeLoop w (n + 1) members s =
      match acquireConnection w members s with
      | .fail out s1 => some (out, s1)
      | .acquired cxn members1 s1 =>
          match exchangeAndInterpret w members1 s1 cxn with
          | .done out s2 => some (out, s2)
          | .next members2 s2 => proposeLoop w n members2 s2 := rfl

/-- Everything true of a failed acquisition: it only happens with no
retained connection, it leaves the client untouched, appends only to the
trace, and yields an error outcome. -/
theorem acquire_fail_inv (w : World) (members : List Address) (s : SimSt)
    (out : Outcome) (s1 : SimSt) (h : acquireConnection w members s = .fail out s1) :
    s.client.leader_connection = none ∧ s1.client = s.client ∧ s1.xchg = s.xchg ∧
    s.nextCid ≤ s1.nextCid ∧ (∃ t, s1.events = s.events ++ t) ∧ ∃ e, out = .err e := by
  cases hlc : s.client.leader_connection with
  | some cxn => rw [acquire_retained w members s cxn hlc] at h; cases h
  | none =>
    cases members with
    | nil =>
      rw [acquire_exhausted w s hlc] at h
      cases h
      exact ⟨rfl, rfl, rfl, Nat.le_refl _, ⟨[], by simp⟩, _, rfl⟩
    | cons a rest =>
      cases hca : w.connectOk a with
      | false =>
        rw [acquire_connect_fail w s a rest hlc hca] at h
        cases h
        exact ⟨rfl, rfl, rfl, Nat.le_refl _, ⟨_, rfl⟩, _, rfl⟩
      | true =>
        cases hpa : w.preambleOk ⟨a, s.nextCid⟩ with
        | false =>
          rw [acquire_preamble_fail w s a rest hlc hca hpa] at h
          cases h
          exact ⟨rfl, rfl, rfl, Nat.le_succ _, ⟨_, rfl⟩, _, rfl⟩
        | true => rw [acquire_fresh w s a rest hlc hca hpa] at h; cases h

/-- Full characterization of a successful acquisition: either the retained
connection was taken (iterator untouched, no event emitted), or the next
candidate was drawn and its connect and preamble succeeded. -/
theorem acquire_acquired_inv (w : World) (members : List Address) (s : SimSt)
    (cxn : Connection) (m1 : List Address) (s1 : SimSt)
    (h : acquireConnection w members s = .acquired cxn m1 s1) :
    (s.client.leader_connection = some cxn ∧ m1 = members ∧
       s1 = { s with client := { s.client with leader_connection := none } }) ∨
    (s.client.leader_connection = none ∧ ∃ a rest, members = a :: rest ∧ m1 = rest ∧
       w.connectOk a = true ∧ w.preambleOk ⟨a, s.nextCid⟩ = true ∧ cxn = ⟨a, s.nextCid⟩ ∧
       s1 = { s with nextCid := s.nextCid + 1,
                     events := (s.events ++ [.connect a s.nextCid])
                       ++ [.preamble a s.nextCid] }) := by
  cases hlc : s.client.leader_connection with
  | some c =>
    rw [acquire_retained w members s c hlc] at h
    cases h
    exact Or.inl ⟨rfl, rfl, rfl⟩
  | none =>
    cases members with
    | nil => rw [acquire_exhausted w s hlc] at h; cases h
    | cons a rest =>
      cases hca : w.connectOk a with
      | false => rw [acquire_connect_fail w s a rest hlc hca] at h; cases h
      | true =>
        cases hpa : w.preambleOk ⟨a, s.nextCid⟩ with
        | false => rw [acquire_preamble_fail w s a rest hlc hca hpa] at h; cases h
        | true =>
          rw [acquire_fresh w s a rest hlc hca hpa] at h
          cases h
          exact Or.inr ⟨rfl, a, _, rfl, rfl, hca, hpa, rfl, rfl⟩

/-- Full characterization of a terminal interpretation of a response. -/
theorem interp_done_inv (w : World) (m : List Address) (s : SimSt) (cxn : Connection)
    (out : Outcome) (s2 : SimSt) (h : exchangeAndInterpret w m s cxn = .done out s2) :
    (out = .ok ∧ w.respond cxn s.xchg = .success ∧
       s2 = { afterExchange s cxn with
              client := { s.client with leader_connection := some cxn } }) ∨
    ((w.respond cxn s.xchg = .ioErr ∨ w.respond cxn s.xchg = .notLeaderBad) ∧
       out = .err .ioError ∧ s2 = afterExchange s cxn) ∨
    (w.respond cxn s.xchg = .unexpected ∧ out = .panicked ∧ s2 = afterExchange s cxn) ∨
    (∃ b, w.respond cxn s.xchg = .notLeaderOk b ∧ w.connectOk b = false ∧
       out = .err (.connectError b) ∧
       s2 = { s with xchg := s.xchg + 1,
                     events := (s.events ++ [.exchange cxn.peer cxn.cid])
                       ++ [.connectFail b] }) ∨
    (∃ b, w.respond cxn s.xchg = .notLeaderOk b ∧ w.connectOk b = true ∧
       w.preambleOk ⟨b, s.nextCid⟩ = false ∧ out = .err .ioError ∧
       s2 = { s with nextCid := s.nextCid + 1, xchg := s.xchg + 1,
                     events := (s.events ++ [.exchange cxn.peer cxn.cid])
                       ++ [.connect b s.nextCid] }) := by
  cases hr : w.respond cxn s.xchg with
  | ioErr =>
    rw [interp_ioErr w m s cxn hr] at h
    cases h
    exact Or.inr (Or.inl ⟨Or.inl rfl, rfl, rfl⟩)
  | success =>
    rw [interp_success w m s cxn hr] at h
    cases h
    exact Or.inl ⟨rfl, rfl, rfl⟩
  | unknownLeader => rw [interp_unknown w m s cxn hr] at h; cases h
  | notLeaderBad =>
    rw [interp_notLeaderBad w m s cxn hr] at h
    cases h
    exact Or.inr (Or.inl ⟨Or.inr rfl, rfl, rfl⟩)
  | unexpected =>
    rw [interp_unexpected w m s cxn hr] at h
    cases h
    exact Or.inr (Or.inr (Or.inl ⟨rfl, rfl, rfl⟩))
  | notLeaderOk b =>
    cases hcb : w.connectOk b with
    | false =>
      rw [interp_redirect_connect_fail w m s cxn b hr hcb] at h
      cases h
      exact Or.inr (Or.inr (Or.inr (Or.inl ⟨b, rfl, hcb, rfl, rfl⟩)))
    | true =>
      cases hpb : w.preambleOk ⟨b, s.nextCid⟩ with
      | false =>
        rw [interp_redirect_preamble_fail w m s cxn b hr hcb hpb] at h
        cases h
        exact Or.inr (Or.inr (Or.inr (Or.inr ⟨b, rfl, hcb, hpb, rfl, rfl⟩)))
      | true => rw [interp_redirect w m s cxn b hr hcb hpb] at h; cases h

/-- Full characterization of a continuing interpretation: the candidate
iterator is untouched, and the cause is `UnknownLeader` (connection
dropped) or a fully successful `NotLeader` redirect (new connection
preambled and installed). -/
theorem interp_next_inv (w : World) (m : List Address) (s : SimSt) (cxn : Connection)
    (m2 : List Address) (s2 : SimSt) (h : exchangeAndInterpret w m s cxn = .next m2 s2) :
    m2 = m ∧
    ((w.respond cxn s.xchg = .unknownLeader ∧ s2 = afterExchange s cxn) ∨
     (∃ b, w.respond cxn s.xchg = .notLeaderOk b ∧ w.connectOk b = true ∧
        w.preambleOk ⟨b, s.nextCid⟩ = true ∧
        s2 = { client := { s.client with leader_connection := some ⟨b, s.nextCid⟩ },
               nextCid := s.nextCid + 1, xchg := s.xchg + 1,
               events := ((s.events ++ [.exchange cxn.peer cxn.cid])
                 ++ [.connect b s.nextCid]) ++ [.preamble b s.nextCid] })) := by
  cases hr : w.respond cxn s.xchg with
  | ioErr => rw [interp_ioErr w m s cxn hr] at h; cases h
  | success => rw [interp_success w m s cxn hr] at h; cases h
  | unknownLeader =>
    rw [interp_unknown w m s cxn hr] at h
    cases h
    exact ⟨rfl, Or.inl ⟨rfl, rfl⟩⟩
  | notLeaderBad => rw [interp_notLeaderBad w m s cxn hr] at h; cases h
  | unexpected => rw [interp_unexpected w m s cxn hr] at h; cases h
  | notLeaderOk b =>
    cases hcb : w.connectOk b with
    | false => rw [interp_redirect_connect_fail w m s cxn b hr hcb] at h; cases h
    | true =>
      cases hpb : w.preambleOk ⟨b, s.nextCid⟩ with
      | false => rw [interp_redirect_preamble_fail w m s cxn b hr hcb hpb] at h; cases h
      | true =>
        rw [interp_redirect w m s cxn b hr hcb hpb] at h
        cases h
        exact ⟨rfl, Or.inr ⟨b, rfl, hcb, hpb, rfl⟩⟩

/-- Common consequences of a successful acquisition. -/
theorem acquire_acquired_basic (w : World) (members : List Address) (s : SimSt)
    (cxn : Connection) (m1 : List Address) (s1 : SimSt)
    (h : acquireConnection w members s = .acquired cxn m1 s1) :
    s1.client.leader_connection = none ∧ s1.client.cluster = s.client.cluster ∧
    s1.client.id = s.client.id ∧ s1.xchg = s.xchg ∧ s.nextCid ≤ s1.nextCid ∧
    ∃ t, s1.events = s.events ++ t := by
  rcases acquire_acquired_inv w members s cxn m1 s1 h with
    ⟨hlc, _, h1⟩ | ⟨hlc, a, rest, _, _, _, _, _, h1⟩ <;> subst h1
  · exact ⟨rfl, rfl, rfl, rfl, Nat.le_refl _, [], by simp⟩
  · exact ⟨hlc, rfl, rfl, rfl, Nat.le_succ _,
      [.connect a s.nextCid, .preamble a s.nextCid], by simp⟩

/-- Common consequences of a terminal interpretation. -/
theorem interp_done_basic (w : World) (m : List Address) (s : SimSt) (cxn : Connection)
    (out : Outcome) (s2 : SimSt) (h : exchangeAndInterpret w m s cxn = .done out s2) :
    s2.client.cluster = s.client.cluster ∧ s2.client.id = s.client.id ∧
    s.nextCid ≤ s2.nextCid ∧ (∃ t, s2.events = s.events ++ t) ∧
    (out = .ok → s2.client.leader_connection = some cxn ∧
       s2.events.getLast? = some (.exchange cxn.peer cxn.cid)) ∧
    (out ≠ .ok → s2.client.leader_connection = s.client.leader_connection) := by
  rcases interp_done_inv w m s cxn out s2 h with
    ⟨rfl, _, h1⟩ | ⟨_, rfl, h1⟩ | ⟨_, rfl, h1⟩ | ⟨b, _, _, rfl, h1⟩ | ⟨b, _, _, _, rfl, h1⟩
      <;> subst h1
  · refine ⟨rfl, rfl, Nat.le_refl _, ⟨_, rfl⟩, fun _ => ⟨rfl, ?_⟩, fun hne => absurd rfl hne⟩
    show (s.events ++ [Event.exchange cxn.peer cxn.cid]).getLast? = _
    simp
  · exact ⟨rfl, rfl, Nat.le_refl _, ⟨_, rfl⟩, (fun hok => by cases hok), (fun _ => rfl)⟩
  · exact ⟨rfl, rfl, Nat.le_refl _, ⟨_, rfl⟩, (fun hok => by cases hok), (fun _ => rfl)⟩
  · exact ⟨rfl, rfl, Nat.le_refl _,
      ⟨[.exchange cxn.peer cxn.cid, .connectFail b], by simp⟩,
      (fun hok => by cases hok), (fun _ => rfl)⟩
  · exact ⟨rfl, rfl, Nat.le_succ _,
      ⟨[.exchange cxn.peer cxn.cid, .connect b s.nextCid], by simp⟩,
      (fun hok => by cases hok), (fun _ => rfl)⟩

/-- Common consequences of a continuing interpretation. -/
theorem interp_next_basic (w : World) (m : List Address) (s : SimSt) (cxn : Connection)
    (m2 : List Address) (s2 : SimSt) (h : exchangeAndInterpret w m s cxn = .next m2 s2) :
    m2 = m ∧ s2.client.cluster = s.client.cluster ∧ s2.client.id = s.client.id ∧
    s.nextCid ≤ s2.nextCid ∧ ∃ t, s2.events = s.events ++ t := by
  obtain ⟨rfl, hc⟩ := interp_next_inv w m s cxn m2 s2 h
  rcases hc with ⟨_, h1⟩ | ⟨b, _, _, _, h1⟩ <;> subst h1
  · exact ⟨rfl, rfl, rfl, Nat.le_refl _, _, rfl⟩
  · exact ⟨rfl, rfl, rfl, Nat.le_succ _,
      [.exchange cxn.peer cxn.cid, .connect b s.nextCid, .preamble b s.nextCid], by simp⟩

/-- Master invariant of the loop: the cluster and the client id are never
mutated, the trace only grows, connection ids only go up, every error
return leaves the retained slot empty, and an `Ok` return stores the
connection whose exchange (the last event of the call) got `Success`. -/
theorem proposeLoop_inv (w : World) : ∀ (fuel : Nat) (members : List Address) (s : SimSt)
    (out : Outcome) (s' : SimSt), proposeLoop w fuel members s = some (out, s') →
    s'.client.cluster = s.client.cluster ∧ s'.client.id = s.client.id ∧
    (∃ t, s'.events = s.events ++ t) ∧ s.nextCid ≤ s'.nextCid ∧
    ((∃ e, out = .err e) → s'.client.leader_connection = none) ∧
    (out = .ok → ∃ c, s'.client.leader_connection = some c ∧
       s'.events.getLast? = some (.exchange c.peer c.cid)) := by
  intro fuel
  induction fuel with
  | zero => intro members s out s' h; simp [proposeLoop] at h
  | succ n ih =>
    intro members s out s' h
    rw [proposeLoop_succ] at h
    cases hA : acquireConnection w members s with
    | fail out1 s1 =>
      rw [hA] at h
      simp only [Option.some.injEq, Prod.mk.injEq] at h
      obtain ⟨rfl, rfl⟩ := h
      obtain ⟨hlc0, hcl, _, hn, ⟨t, ht⟩, e, he⟩ := acquire_fail_inv w members s out1 s1 hA
      subst he
      exact ⟨by rw [hcl], by rw [hcl], ⟨t, ht⟩, hn,
        (fun _ => by rw [hcl]; exact hlc0), (fun hok => by cases hok)⟩
    | acquired cxn m1 s1 =>
      rw [hA] at h
      replace h : (match exchangeAndInterpret w m1 s1 cxn with
          | .done out s2 => some (out, s2)
          | .next members2 s2 => proposeLoop w n members2 s2) = some (out, s') := h
      obtain ⟨hlc1, hcl1, hid1, _, hn1, t1, ht1⟩ :=
        acquire_acquired_basic w members s cxn m1 s1 hA
      cases hX : exchangeAndInterpret w m1 s1 cxn with
      | done out2 s2 =>
        rw [hX] at h
        simp only [Option.some.injEq, Prod.mk.injEq] at h
        obtain ⟨rfl, rfl⟩ := h
        obtain ⟨hcl2, hid2, hn2, ⟨t2, ht2⟩, hok2, hne2⟩ :=
          interp_done_basic w m1 s1 cxn out2 s2 hX
        refine ⟨by rw [hcl2, hcl1], by rw [hid2, hid1],
          ⟨t1 ++ t2, by rw [ht2, ht1, List.append_assoc]⟩, Nat.le_trans hn1 hn2, ?_, ?_⟩
        · rintro ⟨e, rfl⟩
          rw [hne2 (by simp), hlc1]
        · intro hok
          exact ⟨cxn, (hok2 hok).1, (hok2 hok).2⟩
      | next m2 s2 =>
        rw [hX] at h
        replace h : proposeLoop w n m2 s2 = some (out, s') := h
        obtain ⟨rfl, hcl2, hid2, hn2, t2, ht2⟩ := interp_next_basic w m1 s1 cxn m2 s2 hX
        obtain ⟨hcl3, hid3, ⟨t3, ht3⟩, hn3, herr3, hok3⟩ := ih _ s2 out s' h
        refine ⟨by rw [hcl3, hcl2, hcl1], by rw [hid3, hid2, hid1],
          ⟨(t1 ++ t2) ++ t3, ?_⟩, Nat.le_trans hn1 (Nat.le_trans hn2 hn3), herr3, hok3⟩
        rw [ht3, ht2, ht1]
        simp [List.append_assoc]

/-! ## Driving the loop -/

/-- A failed acquisition ends the call. -/
theorem proposeLoop_step_fail (w : World) (n : Nat) (members : List Address)
    (s : SimSt) (out : Outcome) (s1 : SimSt)
    (hA : acquireConnection w members s = .fail out s1) :
    proposeLoop w (n + 1) members s = some (out, s1) := by
  rw [proposeLoop_succ, hA]

/-- An acquisition followed by a terminal interpretation ends the call. -/
theorem proposeLoop_step_done (w : World) (n : Nat) (members m1 : List Address)
    (s s1 s2 : SimSt) (cxn : Connection) (out : Outcome)
    (hA : acquireConnection w members s = .acquired cxn m1 s1)
    (hX : exchangeAndInterpret w m1 s1 cxn = .done out s2) :
    proposeLoop w (n + 1) members s = some (out, s2) := by
  rw [proposeLoop_succ, hA]
  show (match exchangeAndInterpret w m1 s1 cxn with
    | .done out s2 => some (out, s2)
    | .next members2 s2 => proposeLoop w n members2 s2) = some (out, s2)
  rw [hX]

/-- An acquisition followed by a continuing interpretation unfolds to the
next iteration. -/
theorem proposeLoop_step_next (w : World) (n : Nat) (members m1 m2 : List Address)
    (s s1 s2 : SimSt) (cxn : Connection)
    (hA : acquireConnection w members s = .acquired cxn m1 s1)
    (hX : exchangeAndInterpret w m1 s1 cxn = .next m2 s2) :
    proposeLoop w (n + 1) members s = proposeLoop w n m2 s2 := by
  rw [proposeLoop_succ, hA]
  show (match exchangeAndInterpret w m1 s1 cxn with
    | .done out s2 => some (out, s2)
    | .next members2 s2 => proposeLoop w n members2 s2) = proposeLoop w n m2 s2
  rw [hX]

/-! ## Trace projections -/

@[simp] theorem exchangePeers_nil : exchangePeers [] = [] := rfl

@[simp] theorem exchangePeers_append (es1 es2 : List Event) :
    exchangePeers (es1 ++ es2) = exchangePeers es1 ++ exchangePeers es2 :=
  List.filterMap_append es1 es2 _

@[simp] theorem exchangePeers_connect (a : Address) (c : Nat) (es : List Event) :
    exchangePeers (.connect a c :: es) = exchangePeers es := rfl

@[simp] theorem exchangePeers_connectFail (a : Address) (es : List Event) :
    exchangePeers (.connectFail a :: es) = exchangePeers es := rfl

@[simp] theorem exchangePeers_preamble (a : Address) (c : Nat) (es : List Event) :
    exchangePeers (.preamble a c :: es) = exchangePeers es := rfl

@[simp] theorem exchangePeers_exchange (a : Address) (c : Nat) (es : List Event) :
    exchangePeers (.exchange a c :: es) = a :: exchangePeers es := rfl

/-! ## The all-UnknownLeader sweep -/

/-- In a world where every reachable server answers `UnknownLeader`, a call
that starts with no retained connection performs one full sweep: each
remaining candidate is connected, preambled and contacted once, in iterator
order, and the call ends with `LeaderSearchExhausted`, the client otherwise
untouched. -/
theorem unknown_sweep (w : World) (hr : ∀ c x, w.respond c x = .unknownLeader)
    (hc : ∀ a, w.connectOk a = true) (hp : ∀ c, w.preambleOk c = true) :
    ∀ (members : List Address) (s : SimSt), s.client.leader_connection = none →
    ∃ s', proposeLoop w (members.length + 1) members s
        = some (.err .leaderSearchExhausted, s')
      ∧ s'.client = s.client
      ∧ exchangePeers s'.events = exchangePeers s.events ++ members := by
  intro members
  induction members with
  | nil =>
    intro s hlc
    exact ⟨s, proposeLoop_step_fail w 0 [] s _ s (acquire_exhausted w s hlc), rfl, by simp⟩
  | cons a rest ih =>
    intro s hlc
    have e1 := acquire_fresh w s a rest hlc (hc a) (hp _)
    have e2 := interp_unknown w rest
      { s with nextCid := s.nextCid + 1,
               events := (s.events ++ [.connect a s.nextCid]) ++ [.preamble a s.nextCid] }
      ⟨a, s.nextCid⟩ (hr _ _)
    have hstep := proposeLoop_step_next w (rest.length + 1) (a :: rest) rest rest s _ _
      ⟨a, s.nextCid⟩ e1 e2
    obtain ⟨s', hrun, hcli, hpeers⟩ := ih (afterExchange
      { s with nextCid := s.nextCid + 1,
               events := (s.events ++ [.connect a s.nextCid]) ++ [.preamble a s.nextCid] }
      ⟨a, s.nextCid⟩) (by simp [afterExchange, hlc])
    refine ⟨s', ?_, ?_, ?_⟩
    · show proposeLoop w (rest.length + 1 + 1) (a :: rest) s = _
      rw [hstep]
      exact hrun
    · rw [hcli]
      rfl
    · rw [hpeers]
      simp [afterExchange]

/-! ## Perpetual redirects never consume fuel progress -/

/-- In a world where every server redirects (`NotLeader b`) and every
connect and preamble succeeds, the loop never finishes: whatever fuel it is
given runs out (so the real loop spins forever). -/
theorem redirect_no_fuel (w : World) (b : Address)
    (hr : ∀ c x, w.respond c x = .notLeaderOk b)
    (hc : ∀ a, w.connectOk a = true) (hp : ∀ c, w.preambleOk c = true) :
    ∀ (fuel : Nat) (members : List Address) (s : SimSt),
      (s.client.leader_connection ≠ none ∨ members ≠ []) →
      proposeLoop w fuel members s = none := by
  intro fuel
  induction fuel with
  | zero => intro members s _; rfl
  | succ n ih =>
    intro members s hne
    cases hlc : s.client.leader_connection with
    | some cxn =>
      have e1 := acquire_retained w members s cxn hlc
      have e2 := interp_redirect w members
        { s with client := { s.client with leader_connection := none } } cxn b
        (hr _ _) (hc b) (hp _)
      rw [proposeLoop_step_next w n members members members s _ _ cxn e1 e2]
      apply ih
      left
      simp
    | none =>
      cases members with
      | nil =>
        rcases hne with hne | hne
        · exact absurd hlc hne
        · exact absurd rfl hne
      | cons a rest =>
        have e1 := acquire_fresh w s a rest hlc (hc a) (hp _)
        have e2 := interp_redirect w rest
          { s with nextCid := s.nextCid + 1,
                   events := (s.events ++ [.connect a s.nextCid])
                     ++ [.preamble a s.nextCid] }
          ⟨a, s.nextCid⟩ b (hr _ _) (hc b) (hp _)
        rw [proposeLoop_step_next w n (a :: rest) rest rest s _ _ ⟨a, s.nextCid⟩ e1 e2]
        apply ih
        left
        simp

/-! ## Claims -/

/-- C1: the claim says a response frame decoding to neither `Success`,
`UnknownLeader` nor `NotLeader` makes `propose` return a `ProtocolError`
without crashing.  The source instead executes
`panic!("Unexpected message type")` (its own `TODO` comment asks for a
proper error), so on such an input the call aborts the process: evaluated
here on a one-member cluster whose server answers with an unexpected
frame, `propose` ends in the `panicked` outcome, and no error return
happens. -/
theorem propose_malformed_response_panics :
    propose ⟨fun _ => true, fun _ => true, fun _ _ => .unexpected⟩ [] 1
        ⟨⟨7, none, [0]⟩, 0, 0, []⟩
      = some (.panicked, ⟨⟨7, none, [0]⟩, 1, 1,
          [.connect 0 0, .preamble 0 0, .exchange 0 0]⟩) := by
  decide

/-- C2: when the contacted server replies `Success`, `propose` stores the
connection on which the response was received as the retained
`leader_connection` and returns `Ok`; in particular the retained
connection is non-empty afterwards, and the successful exchange is the
last event of the call. -/
theorem propose_success_stores_connection (w : World) (entry : List Nat) (fuel : Nat)
    (s s' : SimSt) (h : propose w entry fuel s = some (.ok, s')) :
    ∃ c, s'.client.leader_connection = some c ∧
      s'.events.getLast? = some (.exchange c.peer c.cid) :=
  (proposeLoop_inv w fuel s.client.cluster { s with events := [] } .ok s' h).2.2.2.2.2 rfl

/-- Witness for C2 at a concrete input: one candidate that immediately
answers `Success`. -/
theorem propose_success_stores_connection_witness :
    ∃ c, (SimSt.mk ⟨7, some ⟨5, 0⟩, [5]⟩ 1 1
        [.connect 5 0, .preamble 5 0, .exchange 5 0]).client.leader_connection = some c ∧
      (SimSt.mk ⟨7, some ⟨5, 0⟩, [5]⟩ 1 1
        [.connect 5 0, .preamble 5 0, .exchange 5 0]).events.getLast?
        = some (.exchange c.peer c.cid) :=
  propose_success_stores_connection ⟨fun _ => true, fun _ => true, fun _ _ => .success⟩
    [] 1 ⟨⟨7, none, [5]⟩, 0, 0, []⟩
    (SimSt.mk ⟨7, some ⟨5, 0⟩, [5]⟩ 1 1 [.connect 5 0, .preamble 5 0, .exchange 5 0])
    (by decide)

/-- C3 counterexample: the claim quantifies over every invocation on a
two-member set, but an invocation that begins with a retained connection
to member 0 of the set `[0, 1]`, with every contacted member replying
`UnknownLeader`, contacts member 0 twice — once on the reused connection
and once more when the fresh candidate iterator hands 0 out — before
exhausting: the exchange trace is `[0, 0, 1]`, so "contacting each member
exactly once" fails (the call still ends in `LeaderSearchExhausted`). -/
theorem propose_two_members_retained_double_contact :
    (propose ⟨fun _ => true, fun _ => true, fun _ _ => .unknownLeader⟩ [] 4
        ⟨⟨7, some ⟨0, 0⟩, [0, 1]⟩, 1, 0, []⟩).map
          (fun r => (r.1, exchangePeers r.2.events))
      = some (.err .leaderSearchExhausted, [0, 0, 1])
    ∧ (((0 : Address) :: 0 :: 1 :: []).count 0 = 2) := by
  constructor
  · decide
  · decide

/-- C3 amended: on a two-member candidate set, an invocation that begins
with no retained connection, in which every contacted member replies
`UnknownLeader`, returns `Err(LeaderSearchExhausted)` after contacting
each member exactly once, and no connection is retained.  (A call that
begins with a retained connection to a member contacts that member twice.) -/
theorem propose_two_members_unknown_exhausts (w : World) (entry : List Nat)
    (a b : Address) (s : SimSt) (hne : a ≠ b) (hclu : s.client.cluster = [a, b])
    (hlc : s.client.leader_connection = none)
    (hr : ∀ c x, w.respond c x = .unknownLeader)
    (hc : ∀ y, w.connectOk y = true) (hp : ∀ c, w.preambleOk c = true) :
    ∃ s', propose w entry 3 s = some (.err .leaderSearchExhausted, s')
      ∧ exchangePeers s'.events = [a, b]
      ∧ (exchangePeers s'.events).count a = 1
      ∧ (exchangePeers s'.events).count b = 1
      ∧ s'.client.leader_connection = none := by
  obtain ⟨s', hrun, hcli, hpeers⟩ := unknown_sweep w hr hc hp [a, b]
    { s with events := [] } hlc
  have hx : exchangePeers s'.events = [a, b] := by simpa using hpeers
  have hnd : ([a, b] : List Address).Nodup := by simp [hne]
  refine ⟨s', ?_, hx, ?_, ?_, ?_⟩
  · show proposeLoop w 3 s.client.cluster { s with events := [] } = _
    rw [hclu]
    exact hrun
  · rw [hx]
    exact List.count_eq_one_of_mem hnd (by simp)
  · rw [hx]
    exact List.count_eq_one_of_mem hnd (by simp)
  · rw [hcli]
    exact hlc

/-- Witness for C3 at a concrete input: members 2 and 3, both answering
`UnknownLeader`. -/
theorem propose_two_members_unknown_exhausts_witness :
    ∃ s', propose ⟨fun _ => true, fun _ => true, fun _ _ => .unknownLeader⟩ [] 3
        ⟨⟨9, none, [2, 3]⟩, 0, 0, []⟩ = some (.err .leaderSearchExhausted, s')
      ∧ exchangePeers s'.events = [2, 3]
      ∧ (exchangePeers s'.events).count 2 = 1
      ∧ (exchangePeers s'.events).count 3 = 1
      ∧ s'.client.leader_connection = none :=
  propose_two_members_unknown_exhausts
    ⟨fun _ => true, fun _ => true, fun _ _ => .unknownLeader⟩ [] 2 3
    ⟨⟨9, none, [2, 3]⟩, 0, 0, []⟩ (by decide) rfl rfl
    (fun _ _ => rfl) (fun _ => rfl) (fun _ => rfl)

/-- C4: when a server replies `NotLeader(b)`, the client immediately
connects to `b` — whatever address it is, member of the candidate set or
not — sends a fresh preamble on the new connection, installs the new
connection as the retained `leader_connection` for the next loop
iteration, and does not consume an entry from the candidate iterator (the
remaining-members list of the next iteration is unchanged). -/
theorem propose_redirect_follows_and_installs (w : World) (fuel : Nat)
    (members : List Address) (s : SimSt) (cxn : Connection) (b : Address)
    (hlc : s.client.leader_connection = some cxn)
    (hr : w.respond cxn s.xchg = .notLeaderOk b)
    (hcb : w.connectOk b = true) (hpb : w.preambleOk ⟨b, s.nextCid⟩ = true) :
    proposeLoop w (fuel + 1) members s = proposeLoop w fuel members
      { client := { s.client with leader_connection := some ⟨b, s.nextCid⟩ },
        nextCid := s.nextCid + 1, xchg := s.xchg + 1,
        events := ((s.events ++ [.exchange cxn.peer cxn.cid]) ++ [.connect b s.nextCid])
          ++ [.preamble b s.nextCid] } :=
  proposeLoop_step_next w fuel members members members s _ _ cxn
    (acquire_retained w members s cxn hlc)
    (interp_redirect w members { s with client := { s.client with leader_connection := none } }
      cxn b hr hcb hpb)

/-- Witness for C4 at a concrete input: retained connection to peer 5,
which redirects to address 9 (an address outside the candidate set). -/
theorem propose_redirect_follows_and_installs_witness :
    proposeLoop ⟨fun _ => true, fun _ => true, fun _ _ => .notLeaderOk 9⟩ (0 + 1) [5]
        ⟨⟨7, some ⟨5, 0⟩, [5]⟩, 1, 0, []⟩
      = proposeLoop ⟨fun _ => true, fun _ => true, fun _ _ => .notLeaderOk 9⟩ 0 [5]
        { client := { Client.mk 7 (some ⟨5, 0⟩) [5] with leader_connection := some ⟨9, 1⟩ },
          nextCid := 1 + 1, xchg := 0 + 1,
          events := (([] ++ [.exchange 5 0]) ++ [.connect 9 1]) ++ [.preamble 9 1] } :=
  propose_redirect_follows_and_installs
    ⟨fun _ => true, fun _ => true, fun _ _ => .notLeaderOk 9⟩ 0 [5]
    ⟨⟨7, some ⟨5, 0⟩, [5]⟩, 1, 0, []⟩ ⟨5, 0⟩ 9 rfl rfl rfl rfl

/-- C5: when establishing a transport connection to a drawn candidate
fails, the whole call aborts immediately with that connect error: the
result state shows only the failed connect attempt appended, so no further
candidate (the untouched `rest`) is tried within the same call. -/
theorem propose_connect_error_aborts (w : World) (fuel : Nat) (s : SimSt)
    (a : Address) (rest : List Address)
    (hlc : s.client.leader_connection = none) (hca : w.connectOk a = false) :
    proposeLoop w (fuel + 1) (a :: rest) s
      = some (.err (.connectError a), { s with events := s.events ++ [.connectFail a] }) :=
  proposeLoop_step_fail w fuel (a :: rest) s _ _ (acquire_connect_fail w s a rest hlc hca)

/-- Witness for C5 at a concrete input: candidates 6 then 8, connecting to
6 fails, 8 is never tried. -/
theorem propose_connect_error_aborts_witness :
    proposeLoop ⟨fun _ => false, fun _ => true, fun _ _ => .success⟩ (0 + 1) (6 :: [8])
        ⟨⟨7, none, [6, 8]⟩, 0, 0, []⟩
      = some (.err (.connectError 6),
          { SimSt.mk ⟨7, none, [6, 8]⟩ 0 0 [] with events := [] ++ [.connectFail 6] }) :=
  propose_connect_error_aborts ⟨fun _ => false, fun _ => true, fun _ _ => .success⟩ 0
    ⟨⟨7, none, [6, 8]⟩, 0, 0, []⟩ 6 [8] rfl rfl

/-- C7 counterexample: the claim says the same address is never retried
within one call.  But a call that begins with a retained connection to
cluster member 0 first contacts 0 on that connection, and after
`UnknownLeader` the fresh candidate iterator hands out 0 again: the
exchange trace of the call contacts address 0 twice. -/
theorem propose_retained_member_contacted_twice :
    (propose ⟨fun _ => true, fun _ => true, fun _ _ => .unknownLeader⟩ [] 3
        ⟨⟨7, some ⟨0, 0⟩, [0]⟩, 1, 0, []⟩).map (fun r => (r.1, exchangePeers r.2.events))
      = some (.err .leaderSearchExhausted, [0, 0])
    ∧ ¬ ([0, 0] : List Address).Nodup := by
  constructor
  · decide
  · decide

/-- Scoping fact for the amendment of C7: the no-double-contact guarantee
cannot be stated for arbitrary responses even in a fresh-start call,
because a `NotLeader` redirect may name a candidate address.  Here member
0 of the fresh-start set `[0, 1]` replies `NotLeader 1` and every other
contact gets `UnknownLeader`: address 1 is contacted once over the
redirect connection and once more when the iterator hands 1 out — the
exchange trace is `[0, 1, 1]`. -/
theorem redirect_candidate_double_contact :
    (propose ⟨fun _ => true, fun _ => true,
        fun c x => if c.peer = 0 ∧ x = 0 then .notLeaderOk 1 else .unknownLeader⟩ [] 4
        ⟨⟨7, none, [0, 1]⟩, 0, 0, []⟩).map
          (fun r => (r.1, exchangePeers r.2.events))
      = some (.err .leaderSearchExhausted, [0, 1, 1]) := by
  decide

/-- C7 amended: within one call of `propose` that begins with no retained
connection and in which every contacted server replies `UnknownLeader`,
the next target drawn from the candidate iterator after an `UnknownLeader`
response is always an address not previously contacted in the call: the
contacted addresses are exactly the duplicate-free candidate set, each
once.  Outside those conditions the guarantee fails: a call that begins
with a retained connection to a member may contact that member twice, and
a `NotLeader` redirect naming a candidate makes even a fresh-start call
contact that address twice (the preceding theorem). -/
theorem propose_unknown_no_retry_without_retained (w : World) (entry : List Nat)
    (s : SimSt) (hlc : s.client.leader_connection = none)
    (hnd : s.client.cluster.Nodup)
    (hr : ∀ c x, w.respond c x = .unknownLeader)
    (hc : ∀ y, w.connectOk y = true) (hp : ∀ c, w.preambleOk c = true) :
    ∃ s', propose w entry (s.client.cluster.length + 1) s
        = some (.err .leaderSearchExhausted, s')
      ∧ exchangePeers s'.events = s.client.cluster
      ∧ (exchangePeers s'.events).Nodup := by
  obtain ⟨s', hrun, hcli, hpeers⟩ := unknown_sweep w hr hc hp s.client.cluster
    { s with events := [] } hlc
  have hx : exchangePeers s'.events = s.client.cluster := by simpa using hpeers
  exact ⟨s', hrun, hx, hx ▸ hnd⟩

/-- Witness for the amended C7 at a concrete input: fresh client on
members 4 and 6, both answering `UnknownLeader`: each contacted once. -/
theorem propose_unknown_no_retry_without_retained_witness :
    ∃ s', propose ⟨fun _ => true, fun _ => true, fun _ _ => .unknownLeader⟩ []
        ((Client.mk 11 none [4, 6]).cluster.length + 1)
        ⟨⟨11, none, [4, 6]⟩, 0, 0, []⟩ = some (.err .leaderSearchExhausted, s')
      ∧ exchangePeers s'.events = [4, 6]
      ∧ (exchangePeers s'.events).Nodup :=
  propose_unknown_no_retry_without_retained
    ⟨fun _ => true, fun _ => true, fun _ _ => .unknownLeader⟩ []
    ⟨⟨11, none, [4, 6]⟩, 0, 0, []⟩ rfl (by decide)
    (fun _ _ => rfl) (fun _ => rfl) (fun _ => rfl)

/-- C8 counterexample: the claim says the per-call loop terminates for
every sequence of server responses.  It does not: in a world where every
contacted server replies `NotLeader 0` (and every connect and preamble
succeeds), no amount of fuel finishes the call — the redirect path
installs a fresh connection without consuming the candidate iterator, so
the loop spins forever. -/
theorem propose_redirect_forever_no_termination :
    ¬ Terminates ⟨fun _ => true, fun _ => true, fun _ _ => .notLeaderOk 0⟩ []
      ⟨⟨7, none, [0]⟩, 0, 0, []⟩ := by
  rintro ⟨fuel, out, s', h⟩
  have h0 := redirect_no_fuel ⟨fun _ => true, fun _ => true, fun _ _ => .notLeaderOk 0⟩ 0
    (fun _ _ => rfl) (fun _ => rfl) (fun _ => rfl) fuel [0]
    ⟨⟨7, none, [0]⟩, 0, 0, []⟩ (Or.inr (by simp))
  exact Option.noConfusion (h0.symm.trans h)

/-- C8 amended: if the loop terminates it does so only via `Success`,
`LeaderSearchExhausted`, or a fatal error, and a cluster whose every
member perpetually reports `UnknownLeader` exhausts the candidate set
exactly once (each member contacted once, no retry bound independent of
the set size); but the loop need not terminate — perpetual `NotLeader`
redirects make it spin forever. -/
theorem propose_unknown_everywhere_exhausts_once (w : World) (entry : List Nat)
    (s : SimSt) (hlc : s.client.leader_connection = none)
    (hnd : s.client.cluster.Nodup)
    (hr : ∀ c x, w.respond c x = .unknownLeader)
    (hc : ∀ y, w.connectOk y = true) (hp : ∀ c, w.preambleOk c = true) :
    ∃ s', propose w entry (s.client.cluster.length + 1) s
        = some (.err .leaderSearchExhausted, s')
      ∧ exchangePeers s'.events = s.client.cluster
      ∧ ∀ a ∈ s.client.cluster, (exchangePeers s'.events).count a = 1 := by
  obtain ⟨s', hrun, hcli, hpeers⟩ := unknown_sweep w hr hc hp s.client.cluster
    { s with events := [] } hlc
  have hx : exchangePeers s'.events = s.client.cluster := by simpa using hpeers
  refine ⟨s', hrun, hx, fun a ha => ?_⟩
  rw [hx]
  exact List.count_eq_one_of_mem hnd ha

/-- Witness for the amended C8 at a concrete input: three members, all
answering `UnknownLeader`; each is contacted exactly once. -/
theorem propose_unknown_everywhere_exhausts_once_witness :
    ∃ s', propose ⟨fun _ => true, fun _ => true, fun _ _ => .unknownLeader⟩ []
        ((Client.mk 3 none [0, 1, 2]).cluster.length + 1)
        ⟨⟨3, none, [0, 1, 2]⟩, 0, 0, []⟩ = some (.err .leaderSearchExhausted, s')
      ∧ exchangePeers s'.events = [0, 1, 2]
      ∧ ∀ a ∈ ([0, 1, 2] : List Address), (exchangePeers s'.events).count a = 1 :=
  propose_unknown_everywhere_exhausts_once
    ⟨fun _ => true, fun _ => true, fun _ _ => .unknownLeader⟩ []
    ⟨⟨3, none, [0, 1, 2]⟩, 0, 0, []⟩ rfl (by decide)
    (fun _ _ => rfl) (fun _ => rfl) (fun _ => rfl)

/-- C9: `propose` never mutates the candidate set or the client identity,
and each invocation builds a fresh iterator over the full set: after a
call that ended in `LeaderSearchExhausted`, a second call sweeps the whole
candidate set again, with no memory of the addresses that failed in the
first call. -/
theorem propose_fresh_iterator_no_memory (w : World) (entry : List Nat) (s : SimSt)
    (hlc : s.client.leader_connection = none)
    (hr : ∀ c x, w.respond c x = .unknownLeader)
    (hc : ∀ y, w.connectOk y = true) (hp : ∀ c, w.preambleOk c = true) :
    (∀ (w2 : World) (e2 : List Nat) (f2 : Nat) (t t' : SimSt) (out : Outcome),
        propose w2 e2 f2 t = some (out, t') →
        t'.client.cluster = t.client.cluster ∧ t'.client.id = t.client.id)
    ∧ ∃ s1 s2, propose w entry (s.client.cluster.length + 1) s
          = some (.err .leaderSearchExhausted, s1)
        ∧ exchangePeers s1.events = s.client.cluster
        ∧ propose w entry (s1.client.cluster.length + 1) s1
          = some (.err .leaderSearchExhausted, s2)
        ∧ exchangePeers s2.events = s.client.cluster := by
  constructor
  · intro w2 e2 f2 t t' out h
    have hi := proposeLoop_inv w2 f2 t.client.cluster { t with events := [] } out t' h
    exact ⟨hi.1, hi.2.1⟩
  · obtain ⟨s1, hrun1, hcli1, hpeers1⟩ := unknown_sweep w hr hc hp s.client.cluster
      { s with events := [] } hlc
    obtain ⟨s2, hrun2, hcli2, hpeers2⟩ := unknown_sweep w hr hc hp s1.client.cluster
      { s1 with events := [] } (by rw [show ({ s1 with events := [] } : SimSt).client = s1.client from rfl, hcli1]; exact hlc)
    refine ⟨s1, s2, hrun1, by simpa using hpeers1, ?_, ?_⟩
    · show proposeLoop w (s1.client.cluster.length + 1) s1.client.cluster
        { s1 with events := [] } = _
      exact hrun2
    · have : s1.client.cluster = s.client.cluster := by rw [hcli1]
      rw [← this]
      simpa using hpeers2

/-- Witness for C9 at a concrete input: two members 2 and 3, both always
answering `UnknownLeader`; two consecutive calls each sweep both. -/
theorem propose_fresh_iterator_no_memory_witness :
    (∀ (w2 : World) (e2 : List Nat) (f2 : Nat) (t t' : SimSt) (out : Outcome),
        propose w2 e2 f2 t = some (out, t') →
        t'.client.cluster = t.client.cluster ∧ t'.client.id = t.client.id)
    ∧ ∃ s1 s2, propose ⟨fun _ => true, fun _ => true, fun _ _ => .unknownLeader⟩ []
          ((Client.mk 9 none [2, 3]).cluster.length + 1)
          ⟨⟨9, none, [2, 3]⟩, 0, 0, []⟩ = some (.err .leaderSearchExhausted, s1)
        ∧ exchangePeers s1.events = [2, 3]
        ∧ propose ⟨fun _ => true, fun _ => true, fun _ _ => .unknownLeader⟩ []
            (s1.client.cluster.length + 1) s1 = some (.err .leaderSearchExhausted, s2)
        ∧ exchangePeers s2.events = [2, 3] :=
  propose_fresh_iterator_no_memory
    ⟨fun _ => true, fun _ => true, fun _ _ => .unknownLeader⟩ []
    ⟨⟨9, none, [2, 3]⟩, 0, 0, []⟩ rfl (fun _ _ => rfl) (fun _ => rfl) (fun _ => rfl)

/-- C10: whenever `propose` returns an `Err` of any kind — exhaustion,
connect failure, or io failure — the client's `leader_connection` is
`none` on return: the slot is taken at the start of each iteration and
refilled only on `Success` or a completed redirect, so no error exit
leaves a stale retained connection. -/
theorem propose_error_leaves_no_connection (w : World) (entry : List Nat) (fuel : Nat)
    (s s' : SimSt) (e : RaftError) (h : propose w entry fuel s = some (.err e, s')) :
    s'.client.leader_connection = none :=
  (proposeLoop_inv w fuel s.client.cluster { s with events := [] }
    (.err e) s' h).2.2.2.2.1 ⟨e, rfl⟩

/-- Witness for C10 at a concrete input: a client with an empty candidate
set and no retained connection fails with `LeaderSearchExhausted` and its
retained slot is empty. -/
theorem propose_error_leaves_no_connection_witness :
    (SimSt.mk ⟨4, none, []⟩ 0 0 []).client.leader_connection = none :=
  propose_error_leaves_no_connection
    ⟨fun _ => true, fun _ => true, fun _ _ => .unknownLeader⟩ [] 1
    ⟨⟨4, none, []⟩, 0, 0, []⟩ (SimSt.mk ⟨4, none, []⟩ 0 0 []) .leaderSearchExhausted
    (by decide)

/-! ## Preamble discipline of a call trace -/

/-- State of the preamble-discipline checker: the connection, if any, that
was just established and still awaits its preamble, and the connections
already preambled during this call. -/
structure TrSt where
  pending : Option Connection
  preambled : List Connection
deriving DecidableEq, Repr

/-- One checker step, parameterised by `n0`, the first connection id
minted in this call (ids below `n0` belong to connections established in
earlier calls, whose preamble was already sent back then).  It rejects
when a second connection is opened while one still awaits its preamble,
when a preamble does not immediately follow the connect of its own
connection, when a connection gets a second preamble, or when a proposal
exchange happens on a connection of this call that was never preambled. -/
def traceStep (n0 : Nat) (st : TrSt) (e : Event) : Option TrSt :=
  match e with
  | .connect a c =>
      match st.pending with
      | none => some { st with pending := some ⟨a, c⟩ }
      | some _ => none
  | .preamble a c =>
      match st.pending with
      | some p =>
          if p = ⟨a, c⟩ ∧ ⟨a, c⟩ ∉ st.preambled then
            some ⟨none, Connection.mk a c :: st.preambled⟩
          else none
      | none => none
  | .exchange a c =>
      if st.pending = none ∧ (c < n0 ∨ Connection.mk a c ∈ st.preambled) then some st
      else none
  | .connectFail _ => if st.pending = none then some st else none

/-- Run the checker over a trace. -/
def traceRun (n0 : Nat) : TrSt → List Event → Option TrSt
  | st, [] => some st
  | st, e :: es =>
      match traceStep n0 st e with
      | none => none
      | some st2 => traceRun n0 st2 es

theorem traceRun_append (n0 : Nat) (st : TrSt) (es1 es2 : List Event) :
    traceRun n0 st (es1 ++ es2)
      = (traceRun n0 st es1).bind (fun st2 => traceRun n0 st2 es2) := by
  induction es1 generalizing st with
  | nil => rfl
  | cons e es ih =>
    cases h2 : traceStep n0 st e with
    | none => simp [traceRun, h2]
    | some st2 => simp [traceRun, h2, ih st2]

/-- The trace chunks a failed acquisition can append. -/
theorem acquire_fail_events (w : World) (members : List Address) (s : SimSt)
    (out : Outcome) (s1 : SimSt) (h : acquireConnection w members s = .fail out s1) :
    s1.events = s.events ∨ (∃ a, s1.events = s.events ++ [.connectFail a]) ∨
    ∃ a, s1.events = s.events ++ [.connect a s.nextCid] := by
  cases hlc : s.client.leader_connection with
  | some cxn => rw [acquire_retained w members s cxn hlc] at h; cases h
  | none =>
    cases members with
    | nil =>
      rw [acquire_exhausted w s hlc] at h
      cases h
      exact Or.inl rfl
    | cons a rest =>
      cases hca : w.connectOk a with
      | false =>
        rw [acquire_connect_fail w s a rest hlc hca] at h
        cases h
        exact Or.inr (Or.inl ⟨a, rfl⟩)
      | true =>
        cases hpa : w.preambleOk ⟨a, s.nextCid⟩ with
        | false =>
          rw [acquire_preamble_fail w s a rest hlc hca hpa] at h
          cases h
          exact Or.inr (Or.inr ⟨a, rfl⟩)
        | true => rw [acquire_fresh w s a rest hlc hca hpa] at h; cases h

/-- Every terminal interpretation first records the exchange on the
acquired connection. -/
theorem interp_done_events (w : World) (m : List Address) (s : SimSt) (cxn : Connection)
    (out : Outcome) (s2 : SimSt) (h : exchangeAndInterpret w m s cxn = .done out s2) :
    ∃ t, s2.events = (s.events ++ [.exchange cxn.peer cxn.cid]) ++ t := by
  rcases interp_done_inv w m s cxn out s2 h with
    ⟨_, _, h1⟩ | ⟨_, _, h1⟩ | ⟨_, _, h1⟩ | ⟨b, _, _, _, h1⟩ | ⟨b, _, _, _, _, h1⟩ <;> subst h1
  · exact ⟨[], by simp [afterExchange]⟩
  · exact ⟨[], by simp [afterExchange]⟩
  · exact ⟨[], by simp [afterExchange]⟩
  · exact ⟨[.connectFail b], rfl⟩
  · exact ⟨[.connect b s.nextCid], rfl⟩

/-- Every continuing interpretation first records the exchange on the
acquired connection. -/
theorem interp_next_events (w : World) (m : List Address) (s : SimSt) (cxn : Connection)
    (m2 : List Address) (s2 : SimSt) (h : exchangeAndInterpret w m s cxn = .next m2 s2) :
    ∃ t, s2.events = (s.events ++ [.exchange cxn.peer cxn.cid]) ++ t := by
  obtain ⟨_, hc⟩ := interp_next_inv w m s cxn m2 s2 h
  rcases hc with ⟨_, h1⟩ | ⟨b, _, _, _, h1⟩ <;> subst h1
  · exact ⟨[], by simp [afterExchange]⟩
  · exact ⟨[.connect b s.nextCid, .preamble b s.nextCid], by simp⟩

/-- Transfer of the preamble-discipline invariant across the exchange and
interpretation of one response, given the invariant after acquisition. -/
theorem interp_preamble_inv (w : World) (n0 : Nat) (m1 : List Address) (s1 : SimSt)
    (cxn : Connection) (st1 : TrSt)
    (hrun1 : traceRun n0 ⟨none, []⟩ s1.events = some st1) (hpend1 : st1.pending = none)
    (hpre1 : ∀ c ∈ st1.preambled, c.cid < s1.nextCid) (hn01 : n0 ≤ s1.nextCid)
    (hcxn : cxn.cid < n0 ∨ cxn ∈ st1.preambled)
    (hlc1 : s1.client.leader_connection = none)
    (hmem1 : ∀ a c, Event.preamble a c ∈ s1.events → n0 ≤ c) :
    (∀ out s2, exchangeAndInterpret w m1 s1 cxn = .done out s2 →
       (∃ st2, traceRun n0 ⟨none, []⟩ s2.events = some st2) ∧
       ∀ a c, Event.preamble a c ∈ s2.events → n0 ≤ c) ∧
    (∀ m2 s2, exchangeAndInterpret w m1 s1 cxn = .next m2 s2 →
       ∃ st2, traceRun n0 ⟨none, []⟩ s2.events = some st2 ∧ st2.pending = none ∧
         (∀ c ∈ st2.preambled, c.cid < s2.nextCid) ∧ n0 ≤ s2.nextCid ∧
         (∀ c, s2.client.leader_connection = some c → (c.cid < n0 ∨ c ∈ st2.preambled)) ∧
         ∀ a c, Event.preamble a c ∈ s2.events → n0 ≤ c) := by
  obtain ⟨cp, cc⟩ := cxn
  have hex : traceRun n0 ⟨none, []⟩ (s1.events ++ [Event.exchange cp cc]) = some st1 := by
    rw [traceRun_append, hrun1]
    simp [traceRun, traceStep, hpend1, hcxn]
  constructor
  · intro out s2 h
    rcases interp_done_inv w m1 s1 ⟨cp, cc⟩ out s2 h with
      ⟨_, _, h1⟩ | ⟨_, _, h1⟩ | ⟨_, _, h1⟩ | ⟨b, _, _, _, h1⟩ | ⟨b, _, _, _, _, h1⟩
        <;> subst h1
    · refine ⟨⟨st1, hex⟩, ?_⟩
      intro a c hm
      rcases List.mem_append.mp hm with hm | hm
      · exact hmem1 a c hm
      · simp at hm
    · refine ⟨⟨st1, hex⟩, ?_⟩
      intro a c hm
      rcases List.mem_append.mp hm with hm | hm
      · exact hmem1 a c hm
      · simp at hm
    · refine ⟨⟨st1, hex⟩, ?_⟩
      intro a c hm
      rcases List.mem_append.mp hm with hm | hm
      · exact hmem1 a c hm
      · simp at hm
    · refine ⟨⟨st1, ?_⟩, ?_⟩
      · rw [traceRun_append, hex]
        simp [traceRun, traceStep, hpend1]
      · intro a c hm
        rcases List.mem_append.mp hm with hm | hm
        · rcases List.mem_append.mp hm with hm | hm
          · exact hmem1 a c hm
          · simp at hm
        · simp at hm
    · refine ⟨⟨⟨some ⟨b, s1.nextCid⟩, st1.preambled⟩, ?_⟩, ?_⟩
      · rw [traceRun_append, hex]
        simp [traceRun, traceStep, hpend1]
      · intro a c hm
        rcases List.mem_append.mp hm with hm | hm
        · rcases List.mem_append.mp hm with hm | hm
          · exact hmem1 a c hm
          · simp at hm
        · simp at hm
  · intro m2 s2 h
    obtain ⟨rfl, hc⟩ := interp_next_inv w m1 s1 ⟨cp, cc⟩ m2 s2 h
    rcases hc with ⟨_, h1⟩ | ⟨b, _, _, _, h1⟩ <;> subst h1
    · refine ⟨st1, hex, hpend1, hpre1, hn01, ?_, ?_⟩
      · intro c hc2
        rw [show (afterExchange s1 ⟨cp, cc⟩).client.leader_connection
            = s1.client.leader_connection from rfl, hlc1] at hc2
        cases hc2
      · intro a c hm
        rcases List.mem_append.mp hm with hm | hm
        · exact hmem1 a c hm
        · simp at hm
    · have hniq : (Connection.mk b s1.nextCid) ∉ st1.preambled := by
        intro hin
        exact absurd (hpre1 _ hin) (by simp)
      refine ⟨⟨none, Connection.mk b s1.nextCid :: st1.preambled⟩, ?_, rfl, ?_, ?_, ?_, ?_⟩
      · rw [show ((s1.events ++ [Event.exchange cp cc]) ++ [Event.connect b s1.nextCid])
              ++ [Event.preamble b s1.nextCid]
            = (s1.events ++ [Event.exchange cp cc])
              ++ [Event.connect b s1.nextCid, Event.preamble b s1.nextCid] by simp,
          traceRun_append, hex]
        simp [traceRun, traceStep, hpend1, hniq]
      · intro c hc2
        rcases List.mem_cons.mp hc2 with rfl | hc2
        · simp
        · exact Nat.lt_trans (hpre1 _ hc2) (by simp)
      · exact Nat.le_trans hn01 (Nat.le_succ _)
      · intro c hc2
        simp only [Option.some.injEq] at hc2
        right
        rw [← hc2]
        exact List.mem_cons_self _ _
      · intro a c hm
        rcases List.mem_append.mp hm with hm | hm
        · rcases List.mem_append.mp hm with hm | hm
          · rcases List.mem_append.mp hm with hm | hm
            · exact hmem1 a c hm
            · simp at hm
          · simp at hm
        · simp at hm
          obtain ⟨_, rfl⟩ := hm
          exact hn01

/-- Transfer of the preamble-discipline invariant across acquisition. -/
theorem acquire_preamble_inv (w : World) (n0 : Nat) (members : List Address) (s : SimSt)
    (st : TrSt)
    (hrun : traceRun n0 ⟨none, []⟩ s.events = some st) (hpend : st.pending = none)
    (hpre : ∀ c ∈ st.preambled, c.cid < s.nextCid) (hn0 : n0 ≤ s.nextCid)
    (hlcInv : ∀ c, s.client.leader_connection = some c → (c.cid < n0 ∨ c ∈ st.preambled))
    (hmem : ∀ a c, Event.preamble a c ∈ s.events → n0 ≤ c) :
    (∀ out s1, acquireConnection w members s = .fail out s1 →
       (∃ st1, traceRun n0 ⟨none, []⟩ s1.events = some st1) ∧
       ∀ a c, Event.preamble a c ∈ s1.events → n0 ≤ c) ∧
    (∀ cxn m1 s1, acquireConnection w members s = .acquired cxn m1 s1 →
       ∃ st1, traceRun n0 ⟨none, []⟩ s1.events = some st1 ∧ st1.pending = none ∧
         (∀ c ∈ st1.preambled, c.cid < s1.nextCid) ∧ n0 ≤ s1.nextCid ∧
         (cxn.cid < n0 ∨ cxn ∈ st1.preambled) ∧
         s1.client.leader_connection = none ∧
         ∀ a c, Event.preamble a c ∈ s1.events → n0 ≤ c) := by
  constructor
  · intro out s1 h
    rcases acquire_fail_events w members s out s1 h with he | ⟨a, he⟩ | ⟨a, he⟩ <;> rw [he]
    · exact ⟨⟨st, hrun⟩, hmem⟩
    · refine ⟨⟨st, ?_⟩, ?_⟩
      · rw [traceRun_append, hrun]
        simp [traceRun, traceStep, hpend]
      · intro a2 c2 hm
        rcases List.mem_append.mp hm with hm | hm
        · exact hmem a2 c2 hm
        · simp at hm
    · refine ⟨⟨⟨some ⟨a, s.nextCid⟩, st.preambled⟩, ?_⟩, ?_⟩
      · rw [traceRun_append, hrun]
        simp [traceRun, traceStep, hpend]
      · intro a2 c2 hm
        rcases List.mem_append.mp hm with hm | hm
        · exact hmem a2 c2 hm
        · simp at hm
  · intro cxn m1 s1 h
    rcases acquire_acquired_inv w members s cxn m1 s1 h with
      ⟨hsome, _, h1⟩ | ⟨hnone, a, rest, _, _, _, _, rfl, h1⟩ <;> subst h1
    · exact ⟨st, hrun, hpend, hpre, hn0, hlcInv cxn hsome, rfl, hmem⟩
    · have hniq : (Connection.mk a s.nextCid) ∉ st.preambled := by
        intro hin
        exact absurd (hpre _ hin) (by simp)
      refine ⟨⟨none, Connection.mk a s.nextCid :: st.preambled⟩, ?_, rfl, ?_, ?_, ?_, hnone, ?_⟩
      · rw [show ((s.events ++ [Event.connect a s.nextCid]) ++ [Event.preamble a s.nextCid])
            = s.events ++ [Event.connect a s.nextCid, Event.preamble a s.nextCid] by simp,
          traceRun_append, hrun]
        simp [traceRun, traceStep, hpend, hniq]
      · intro c hc2
        rcases List.mem_cons.mp hc2 with rfl | hc2
        · simp
        · exact Nat.lt_trans (hpre _ hc2) (by simp)
      · exact Nat.le_trans hn0 (Nat.le_succ _)
      · right
        exact List.mem_cons_self _ _
      · intro a2 c2 hm
        rcases List.mem_append.mp hm with hm | hm
        · rcases List.mem_append.mp hm with hm | hm
          · exact hmem a2 c2 hm
          · simp at hm
        · simp at hm
          obtain ⟨_, rfl⟩ := hm
          exact hn0

/-- The preamble-discipline checker accepts the trace of every terminating
loop run started in a state whose trace it accepts with no pending
connect, and all preambles of the final trace are on connections of this
call. -/
theorem loop_preamble_inv (w : World) (n0 : Nat) :
    ∀ (fuel : Nat) (members : List Address) (s : SimSt) (out : Outcome) (s' : SimSt),
    proposeLoop w fuel members s = some (out, s') →
    ∀ st, traceRun n0 ⟨none, []⟩ s.events = some st → st.pending = none →
    (∀ c ∈ st.preambled, c.cid < s.nextCid) → n0 ≤ s.nextCid →
    (∀ c, s.client.leader_connection = some c → (c.cid < n0 ∨ c ∈ st.preambled)) →
    (∀ a c, Event.preamble a c ∈ s.events → n0 ≤ c) →
    (∃ st2, traceRun n0 ⟨none, []⟩ s'.events = some st2) ∧
      ∀ a c, Event.preamble a c ∈ s'.events → n0 ≤ c := by
  intro fuel
  induction fuel with
  | zero => intro members s out s' h; simp [proposeLoop] at h
  | succ n ih =>
    intro members s out s' h st hrun hpend hpre hn0 hlcInv hmem
    rw [proposeLoop_succ] at h
    obtain ⟨hfail, hacq⟩ :=
      acquire_preamble_inv w n0 members s st hrun hpend hpre hn0 hlcInv hmem
    cases hA : acquireConnection w members s with
    | fail out1 s1 =>
      rw [hA] at h
      simp only [Option.some.injEq, Prod.mk.injEq] at h
      obtain ⟨rfl, rfl⟩ := h
      exact hfail out1 s1 hA
    | acquired cxn m1 s1 =>
      rw [hA] at h
      replace h : (match exchangeAndInterpret w m1 s1 cxn with
          | .done out s2 => some (out, s2)
          | .next members2 s2 => proposeLoop w n members2 s2) = some (out, s') := h
      obtain ⟨st1, hrun1, hpend1, hpre1, hn01, hcxn, hlc1, hmem1⟩ := hacq cxn m1 s1 hA
      obtain ⟨hdone, hnext⟩ :=
        interp_preamble_inv w n0 m1 s1 cxn st1 hrun1 hpend1 hpre1 hn01 hcxn hlc1 hmem1
      cases hX : exchangeAndInterpret w m1 s1 cxn with
      | done out2 s2 =>
        rw [hX] at h
        simp only [Option.some.injEq, Prod.mk.injEq] at h
        obtain ⟨rfl, rfl⟩ := h
        exact hdone out2 s2 hX
      | next m2 s2 =>
        rw [hX] at h
        replace h : proposeLoop w n m2 s2 = some (out, s') := h
        obtain ⟨st2, hrun2, hpend2, hpre2, hn02, hlc2, hmem2⟩ := hnext m2 s2 hX
        exact ih m2 s2 out s' h st2 hrun2 hpend2 hpre2 hn02 hlc2 hmem2

/-- A call that begins with a retained connection uses it first: its very
first event is the proposal exchange on that connection. -/
theorem propose_retained_head (w : World) (entry : List Nat) (fuel : Nat) (s : SimSt)
    (cxn : Connection) (out : Outcome) (s' : SimSt)
    (hlc : s.client.leader_connection = some cxn)
    (h : propose w entry fuel s = some (out, s')) :
    s'.events.head? = some (.exchange cxn.peer cxn.cid) := by
  cases fuel with
  | zero => exact Option.noConfusion h
  | succ n =>
    have h0 : proposeLoop w (n + 1) s.client.cluster { s with events := [] }
        = some (out, s') := h
    rw [proposeLoop_succ,
      acquire_retained w s.client.cluster { s with events := [] } cxn hlc] at h0
    replace h0 : (match exchangeAndInterpret w s.client.cluster
        { { s with events := ([] : List Event) } with
          client := { s.client with leader_connection := none } } cxn with
      | .done out s2 => some (out, s2)
      | .next members2 s2 => proposeLoop w n members2 s2) = some (out, s') := h0
    cases hX : exchangeAndInterpret w s.client.cluster
        { { s with events := ([] : List Event) } with
          client := { s.client with leader_connection := none } } cxn with
    | done out2 s2 =>
      rw [hX] at h0
      simp only [Option.some.injEq, Prod.mk.injEq] at h0
      obtain ⟨rfl, rfl⟩ := h0
      obtain ⟨t, ht⟩ := interp_done_events w s.client.cluster _ cxn out2 s2 hX
      rw [ht]
      simp
    | next m2 s2 =>
      rw [hX] at h0
      replace h0 : proposeLoop w n m2 s2 = some (out, s') := h0
      obtain ⟨t, ht⟩ := interp_next_events w s.client.cluster _ cxn m2 s2 hX
      obtain ⟨_, _, ⟨t3, ht3⟩, _, _, _⟩ := proposeLoop_inv w n m2 s2 out s' h0
      rw [ht3, ht]
      simp

/-- C6: a call that begins with a retained `LeaderConnection` takes and
uses it — the first event is the exchange on it, and since every preamble
sent during a call is on a connection minted in this call (id at least the
call-initial `nextCid`), no preamble is sent on the retained connection.
Moreover the discipline checker accepts the whole trace: a preamble
appears exactly once per newly established connection, immediately after
its connect, and every proposal exchange on a connection of this call
happens after that connection's preamble. -/
theorem propose_preamble_discipline (w : World) (entry : List Nat) (fuel : Nat)
    (s : SimSt) (cxn : Connection) (out : Outcome) (s' : SimSt)
    (hlc : s.client.leader_connection = some cxn) (hcid : cxn.cid < s.nextCid)
    (h : propose w entry fuel s = some (out, s')) :
    s'.events.head? = some (.exchange cxn.peer cxn.cid)
    ∧ (∀ a c, Event.preamble a c ∈ s'.events → s.nextCid ≤ c)
    ∧ ∃ st2, traceRun s.nextCid ⟨none, []⟩ s'.events = some st2 := by
  have hh := loop_preamble_inv w s.nextCid fuel s.client.cluster { s with events := [] }
    out s' h ⟨none, []⟩ rfl rfl (by intro c hc; cases hc) (Nat.le_refl _)
    (by
      intro c hc
      left
      rw [show ({ s with events := ([] : List Event) } : SimSt).client.leader_connection
          = s.client.leader_connection from rfl, hlc] at hc
      cases hc
      exact hcid)
    (by intro a c hm; cases hm)
  exact ⟨propose_retained_head w entry fuel s cxn out s' hlc h, hh.2, hh.1⟩

/-- Witness for C6 at a concrete input: a retained connection to peer 5
that answers `Success` at once; the call's only event is the exchange on
it, and the checker accepts. -/
theorem propose_preamble_discipline_witness :
    (SimSt.mk ⟨7, some ⟨5, 0⟩, [5]⟩ 1 1 [.exchange 5 0]).events.head?
        = some (.exchange 5 0)
    ∧ (∀ a c, Event.preamble a c
        ∈ (SimSt.mk ⟨7, some ⟨5, 0⟩, [5]⟩ 1 1 [.exchange 5 0]).events → 1 ≤ c)
    ∧ ∃ st2, traceRun 1 ⟨none, []⟩
        (SimSt.mk ⟨7, some ⟨5, 0⟩, [5]⟩ 1 1 [.exchange 5 0]).events = some st2 :=
  propose_preamble_discipline ⟨fun _ => true, fun _ => true, fun _ _ => .success⟩
    [] 1 ⟨⟨7, some ⟨5, 0⟩, [5]⟩, 1, 0, []⟩ ⟨5, 0⟩ .ok
    (SimSt.mk ⟨7, some ⟨5, 0⟩, [5]⟩ 1 1 [.exchange 5 0]) rfl (by decide) (by decide)
